import Mathlib

/-!
Shallow embedding of the Sharp IR protocol logic from `src/src/ir_Sharp.cpp`
(IRremoteESP8266): the compact bit-field codec (`encodeSharp`, `sendSharpRaw`,
`decodeSharp`), the A/C byte-state codec (`sendSharpAc`, `decodeSharpAc`,
checksum routines) and the `IRSharpAc` state mutators.

Machine integers are modelled as `Nat`; all the arithmetic performed by the
source stays within the unsigned ranges involved, the few places where a C
bitwise complement on `uint8_t` occurs are written with the equivalent
explicit 8-bit mask (e.g. `~0x20` becomes `&&& 0xDF`).

The repository's header (`ir_Sharp.h`) and the timing-primitive layer
(`IRrecv`/`IRsend`/`IRutils`) are not part of the source tree given here;
those definitions are modelled from the specification (each such definition
carries a doc comment starting with `Modelled from the spec:`).
-/

/-! ## Protocol constants (from the top of `ir_Sharp.cpp`) -/

def kSharpTick : Nat := 26
def kSharpBitMarkTicks : Nat := 10
def kSharpBitMark : Nat := kSharpBitMarkTicks * kSharpTick
def kSharpOneSpaceTicks : Nat := 70
def kSharpOneSpace : Nat := kSharpOneSpaceTicks * kSharpTick
def kSharpZeroSpaceTicks : Nat := 30
def kSharpZeroSpace : Nat := kSharpZeroSpaceTicks * kSharpTick
def kSharpGapTicks : Nat := 1677
def kSharpGap : Nat := kSharpGapTicks * kSharpTick

/-- Modelled from the spec: the compact protocol packs a 5-bit address
(`kSharpAddressBits`, from the missing header `ir_Sharp.h`). -/
def kSharpAddressBits : Nat := 5

/-- Modelled from the spec: the compact protocol packs an 8-bit command
(`kSharpCommandBits`, from the missing header `ir_Sharp.h`). -/
def kSharpCommandBits : Nat := 8

/-- Modelled from the spec: total bit count of a compact frame,
address + command + expansion + check = 15 (`kSharpBits`). -/
def kSharpBits : Nat := kSharpAddressBits + kSharpCommandBits + 2

def kSharpToggleMask : Nat := 2 ^ (kSharpBits - kSharpAddressBits) - 1
def kSharpAddressMask : Nat := 2 ^ kSharpAddressBits - 1
def kSharpCommandMask : Nat := 2 ^ kSharpCommandBits - 1

/-! ## Receiver-layer constants (the `IRrecv`/`IRsend` headers are outside
the given source tree). -/

/-- Modelled from the spec: the capture layer stores pulse durations in raw
tick units; the reference capture hardware uses 2 microseconds per raw tick. -/
def kRawTick : Nat := 2

/-- Modelled from the spec: the first captured entry is the gap preceding the
frame, so decoding starts at offset 1. -/
def kStartOffset : Nat := 1

/-- Modelled from the spec: a footer is a closing mark plus the trailing gap,
two pulse entries. -/
def kFooter : Nat := 2

/-- Modelled from the spec: a header is a mark plus a space, two pulse
entries. -/
def kHeader : Nat := 2

/-- Modelled from the spec: the default percentage tolerance of the timing
matcher. -/
def kTolerance : Nat := 25

/-- Modelled from the spec: the absolute excess margin (microseconds) added to
marks and subtracted from spaces by the timing matcher. -/
def kMarkExcess : Nat := 50

namespace IRrecv

/-- Modelled from the spec: lower bound of the matcher's tolerance band for a
nominal duration `usecs` at `tolerance` percent. -/
def ticksLow (usecs tolerance : Nat) : Nat := usecs * (100 - tolerance) / 100

/-- Modelled from the spec: upper bound of the matcher's tolerance band for a
nominal duration `usecs` at `tolerance` percent. -/
def ticksHigh (usecs tolerance : Nat) : Nat := usecs * (100 + tolerance) / 100 + 1

/-- Modelled from the spec: does a measured raw-tick duration fall within the
tolerance band around the nominal duration in microseconds? -/
def matchTol (measured desired tolerance : Nat) : Bool :=
  decide (ticksLow desired tolerance ≤ measured * kRawTick ∧
    measured * kRawTick ≤ ticksHigh desired tolerance)

/-- Modelled from the spec: mark matcher; the excess margin is added to the
nominal duration. -/
def matchMark (measured desired tolerance : Nat) : Bool :=
  matchTol measured (desired + kMarkExcess) tolerance

/-- Modelled from the spec: space matcher; the excess margin is subtracted
from the nominal duration. -/
def matchSpace (measured desired tolerance : Nat) : Bool :=
  matchTol measured (desired - kMarkExcess) tolerance

/-- Modelled from the spec: gap matcher, only requires the measured duration
to reach the lower tolerance bound. -/
def matchAtLeast (measured desired : Nat) : Bool :=
  decide (ticksLow desired kTolerance ≤ measured * kRawTick)

end IRrecv

/-- Modelled from the spec: bit-reverse the low `nbits` bits of `input`
(`reverseBits` of the utility layer, outside the given source tree): bit `i`
of the input becomes bit `nbits - 1 - i` of the output. -/
def reverseBits (input : Nat) : Nat → Nat
  | 0 => 0
  | n + 1 => input % 2 * 2 ^ n + reverseBits (input / 2) n

namespace IRsend

/-- Embedding of `IRsend::encodeSharp`: mask the fields, optionally
bit-reverse address and command for LSB-first transmission, then pack
`(address << (commandBits+2)) | (command << 2) | (expansion << 1) | check`. -/
def encodeSharp (address command expansion check : Nat) (MSBfirst : Bool) : Nat :=
  let address := address % 2 ^ kSharpAddressBits
  let command := command % 2 ^ kSharpCommandBits
  let expansion := expansion % 2
  let check := check % 2
  let address := if MSBfirst then address else reverseBits address kSharpAddressBits
  let command := if MSBfirst then command else reverseBits command kSharpCommandBits
  (address <<< (kSharpCommandBits + 2)) ||| (command <<< 2) ||| (expansion <<< 1) ||| check

/-- Modelled from the spec: the MSB-first bit list of the low `nbits` bits of
`data`, as serialized by the generic transmitter. -/
def msbBits (data : Nat) : Nat → List Bool
  | 0 => []
  | n + 1 => data.testBit n :: msbBits data n

/-- Modelled from the spec: the pulse train (microsecond durations,
alternating mark/space) produced by the generic transmitter for one Sharp
half-frame: no header, a bit mark plus a one/zero space per bit, a closing
bit mark and the fixed gap. -/
def sendGenericSharp (data nbits : Nat) : List Nat :=
  ((msbBits data nbits).flatMap fun b =>
    [kSharpBitMark, if b then kSharpOneSpace else kSharpZeroSpace])
  ++ [kSharpBitMark, kSharpGap]

/-- Embedding of the inner loop of `IRsend::sendSharpRaw`: emit the frame,
then XOR the local `data` with `kSharpToggleMask`, a fixed number of times
(the source runs it twice); returns the pulses and the final value of the
local `data` variable. -/
def sendSharpInner (data nbits : Nat) : Nat → List Nat × Nat
  | 0 => ([], data)
  | n + 1 =>
    let rest := sendSharpInner (data ^^^ kSharpToggleMask) nbits n
    (sendGenericSharp data nbits ++ rest.1, rest.2)

/-- Embedding of the outer repeat loop of `IRsend::sendSharpRaw`; the local
`data` is threaded through each double transmission. -/
def sendSharpLoop (data nbits : Nat) : Nat → List Nat × Nat
  | 0 => ([], data)
  | i + 1 =>
    let inner := sendSharpInner data nbits 2
    let rest := sendSharpLoop inner.2 nbits i
    (inner.1 ++ rest.1, rest.2)

/-- Embedding of `IRsend::sendSharpRaw`: `repeat + 1` repetitions, each
transmitting the frame twice (normal then toggled). -/
def sendSharpRaw (data nbits repeatN : Nat) : List Nat :=
  (sendSharpLoop data nbits (repeatN + 1)).1

end IRsend

/-! ## Decode results structure -/

/-- Modelled from the spec: tag distinguishing which protocol family a decode
result belongs to. -/
inductive DecodeType where
  | UNKNOWN : DecodeType
  | SHARP : DecodeType
  | SHARP_AC : DecodeType
deriving DecidableEq

/-- Modelled from the spec: the `decode_results` record: the captured pulse
buffer (raw tick units, entry 0 being the gap preceding the frame) plus the
output fields the decoders fill in. -/
structure DecodeResults where
  rawbuf : List Nat
  decode_type : DecodeType
  value : Nat
  address : Nat
  command : Nat
  bits : Nat
  state : List Nat
deriving DecidableEq

/-- Modelled from the spec: the capture layer materializes a transmitted
pulse train (microseconds) into the raw buffer, dividing by the raw tick and
keeping slot 0 for the gap that preceded the frame. -/
def capture (pulses : List Nat) (r : DecodeResults) : DecodeResults :=
  { r with rawbuf := 0 :: pulses.map (· / kRawTick) }

namespace IRrecv

/-- Embedding of the data loop of `IRrecv::decodeSharp`: at each bit, match a
bit mark (tolerance 35) then classify the following space as one or zero;
returns the accumulated value and the offset after the last consumed entry. -/
def readBits (rawbuf : List Nat) (tick : Nat) : Nat → Nat → Nat → Option (Nat × Nat)
  | offset, data, 0 => some (data, offset)
  | offset, data, n + 1 =>
    if matchMark (rawbuf.getD offset 0) (kSharpBitMarkTicks * tick) 35 then
      if matchSpace (rawbuf.getD (offset + 1) 0) (kSharpOneSpaceTicks * tick) kTolerance then
        readBits rawbuf tick (offset + 2) ((data <<< 1) ||| 1) n
      else if matchSpace (rawbuf.getD (offset + 1) 0) (kSharpZeroSpaceTicks * tick) kTolerance then
        readBits rawbuf tick (offset + 2) (data <<< 1) n
      else none
    else none

/-- Embedding of the tick auto-calibration of `IRrecv::decodeSharp`: the
common tick length is derived from the initial mark entry. -/
def tickOf (results : DecodeResults) : Nat :=
  results.rawbuf.getD kStartOffset 0 * kRawTick / kSharpBitMarkTicks

/-- Embedding of the success epilogue of `IRrecv::decodeSharp`: record the
protocol, bit count, raw value, and the bit-reversed address and command. -/
def sharpSuccess (results : DecodeResults) (nbits data : Nat) : Bool × DecodeResults :=
  (true, { results with
    decode_type := DecodeType.SHARP
    bits := nbits
    value := data
    address := reverseBits data nbits &&& kSharpAddressMask
    command := reverseBits ((data >>> 2) &&& kSharpCommandMask) kSharpCommandBits })

/-- Embedding of the second (inverted) frame verification of
`IRrecv::decodeSharp` (compiled only under `UNIT_TEST`): the second frame's
footer and gap are checked and the first frame must equal the second XORed
with the toggle mask. -/
def decodeSharpSecond (results : DecodeResults) (nbits data : Nat) :
    Option (Nat × Nat) → Bool × DecodeResults
  | none => (false, results)
  | some (second, offset2) =>
    if matchTol (results.rawbuf.getD offset2 0) (kSharpBitMarkTicks * tickOf results)
        kTolerance = false then (false, results)
    else if offset2 + 1 < results.rawbuf.length ∧
        matchAtLeast (results.rawbuf.getD (offset2 + 1) 0)
          (kSharpGapTicks * tickOf results) = false then (false, results)
    else if data ≠ second ^^^ kSharpToggleMask then (false, results)
    else sharpSuccess results nbits data

/-- Embedding of the post-data-loop part of `IRrecv::decodeSharp`: footer and
gap checks, the strict-mode expansion/check bit verification, and (under
`UNIT_TEST`) the decode of the second, inverted frame. -/
def decodeSharpData (results : DecodeResults) (nbits : Nat)
    (strict expansion unitTest : Bool) : Option (Nat × Nat) → Bool × DecodeResults
  | none => (false, results)
  | some (data, offset) =>
    if matchTol (results.rawbuf.getD offset 0) (kSharpBitMarkTicks * tickOf results)
        kTolerance = false then (false, results)
    else if offset + 1 < results.rawbuf.length ∧
        matchAtLeast (results.rawbuf.getD (offset + 1) 0) (kSharpGapTicks * tickOf results)
          = false then
      (false, results)
    else if strict = true ∧ (data &&& 2) >>> 1 ≠ (if expansion then 1 else 0) then
      (false, results)
    else if strict = true ∧ data &&& 1 ≠ 0 then (false, results)
    else if strict = true ∧ unitTest = true then
      if matchSpace (results.rawbuf.getD (offset + 1) 0) (kSharpGapTicks * tickOf results)
          kTolerance = false then (false, results)
      else decodeSharpSecond results nbits data
        (readBits results.rawbuf (tickOf results) (offset + 2) 0 nbits)
    else sharpSuccess results nbits data

/-- Embedding of `IRrecv::decodeSharp`.  The `unitTest` flag mirrors the
`UNIT_TEST` build configuration: the two-frame length requirement and the
verification of the inverted second frame are compiled in only under it. -/
def decodeSharp (results : DecodeResults) (nbits : Nat) (strict expansion : Bool)
    (unitTest : Bool) : Bool × DecodeResults :=
  if results.rawbuf.length < 2 * nbits + kFooter - 1 then (false, results)
  else if strict = true ∧ nbits ≠ kSharpBits then (false, results)
  else if strict = true ∧ unitTest = true ∧
      results.rawbuf.length < 2 * (2 * nbits + kFooter) then (false, results)
  else if matchMark (results.rawbuf.getD kStartOffset 0) kSharpBitMark 35 = false then
    (false, results)
  else decodeSharpData results nbits strict expansion unitTest
    (readBits results.rawbuf (tickOf results) kStartOffset 0 nbits)

end IRrecv

/-! ## Sharp A/C constants (from the missing header `ir_Sharp.h`) -/

/-- Modelled from the spec: the A/C state array is 13 bytes long. -/
def kSharpAcStateLength : Nat := 13

/-- Modelled from the spec: total data bit count of an A/C frame. -/
def kSharpAcBits : Nat := kSharpAcStateLength * 8

/-- Modelled from the spec: A/C header mark duration (microseconds). -/
def kSharpAcHdrMark : Nat := 3860

/-- Modelled from the spec: A/C header space duration (microseconds). -/
def kSharpAcHdrSpace : Nat := 1920

/-- Modelled from the spec: A/C bit mark duration (microseconds). -/
def kSharpAcBitMark : Nat := 470

/-- Modelled from the spec: A/C one-space duration (microseconds). -/
def kSharpAcOneSpace : Nat := 1400

/-- Modelled from the spec: A/C zero-space duration (microseconds). -/
def kSharpAcZeroSpace : Nat := 500

/-- Modelled from the spec: A/C inter-message gap duration (microseconds). -/
def kSharpAcGap : Nat := 100000

/-- Modelled from the spec: byte offset of the temperature field. -/
def kSharpAcByteTemp : Nat := 4

/-- Modelled from the spec: mask of the temperature field inside its byte. -/
def kSharpAcMaskTemp : Nat := 0xF

/-- Modelled from the spec: minimum settable temperature, degrees Celsius. -/
def kSharpAcMinTemp : Nat := 15

/-- Modelled from the spec: maximum settable temperature, degrees Celsius. -/
def kSharpAcMaxTemp : Nat := 30

/-- Modelled from the spec: byte offset of the power flag. -/
def kSharpAcBytePower : Nat := 5

/-- Modelled from the spec: bit of the power flag inside its byte. -/
def kSharpAcBitPower : Nat := 0x10

/-- Modelled from the spec: byte offset of the mode field. -/
def kSharpAcByteMode : Nat := 6

/-- Modelled from the spec: mask of the mode field inside its byte. -/
def kSharpAcMaskMode : Nat := 0x3

/-- Modelled from the spec: Auto mode value. -/
def kSharpAcAuto : Nat := 0x0

/-- Modelled from the spec: Heat mode value. -/
def kSharpAcHeat : Nat := 0x1

/-- Modelled from the spec: Cool mode value. -/
def kSharpAcCool : Nat := 0x2

/-- Modelled from the spec: Dry mode value. -/
def kSharpAcDry : Nat := 0x3

/-- Modelled from the spec: byte offset of the fan field (shares the mode
byte). -/
def kSharpAcByteFan : Nat := 6

/-- Modelled from the spec: mask of the fan field inside its byte. -/
def kSharpAcMaskFan : Nat := 0x70

/-- Modelled from the spec: Auto fan-speed value. -/
def kSharpAcFanAuto : Nat := 0x2

/-- Modelled from the spec: minimum fan-speed value. -/
def kSharpAcFanMin : Nat := 0x4

/-- Modelled from the spec: medium fan-speed value. -/
def kSharpAcFanMed : Nat := 0x3

/-- Modelled from the spec: high fan-speed value. -/
def kSharpAcFanHigh : Nat := 0x5

/-- Modelled from the spec: maximum fan-speed value. -/
def kSharpAcFanMax : Nat := 0x7

/-- Modelled from the spec: byte offset of the manual-flags byte. -/
def kSharpAcByteManual : Nat := 10

/-- Modelled from the spec: manual-temperature flag bit. -/
def kSharpAcBitTempManual : Nat := 0x4

/-- Modelled from the spec: manual-fan flag bit. -/
def kSharpAcBitFanManual : Nat := 0x2

namespace IRsend

/-- Modelled from the spec: the LSB-first bit list of the low `nbits` bits of
a byte, as serialized by the generic byte transmitter for the A/C protocol. -/
def lsbBits (data : Nat) : Nat → List Bool
  | 0 => []
  | n + 1 => data.testBit 0 :: lsbBits (data >>> 1) n

/-- Embedding of `IRsend::sendSharpAc` (one repeat) on top of the modelled
generic transmitter: header mark and space, each state byte LSB-first as a bit
mark plus a one/zero space, then the closing bit mark and the gap. -/
def sendSharpAc (data : List Nat) : List Nat :=
  [kSharpAcHdrMark, kSharpAcHdrSpace]
  ++ (data.flatMap fun byte =>
      (lsbBits byte 8).flatMap fun b =>
        [kSharpAcBitMark, if b then kSharpAcOneSpace else kSharpAcZeroSpace])
  ++ [kSharpAcBitMark, kSharpAcGap]

end IRsend

namespace IRrecv

/-- Modelled from the spec: outcome of the byte/bit-group classifier:
`{value, entriesConsumed, success}`. -/
structure MatchResult where
  data : Nat
  used : Nat
  success : Bool
deriving DecidableEq

/-- Modelled from the spec: the byte/bit-group classifier `matchData`: read
`nbits` bits starting at `offset`, each as a mark plus a one/zero space; on an
unclassifiable pair stop with `success = false`; on success optionally
bit-reverse for LSB-first data. -/
def matchData (buf : List Nat) (offset : Nat) (onemark onespace zeromark zerospace : Nat)
    (tolerance excess : Nat) (MSBfirst : Bool) : Nat → Nat → Nat → MatchResult
  | used, data, 0 =>
    { data := if MSBfirst then data else reverseBits data 8, used := used, success := true }
  | used, data, n + 1 =>
    if (matchTol (buf.getD offset 0) (onemark + excess) tolerance
        && matchTol (buf.getD (offset + 1) 0) (onespace - excess) tolerance) = true then
      matchData buf (offset + 2) onemark onespace zeromark zerospace tolerance excess
        MSBfirst (used + 2) ((data <<< 1) ||| 1) n
    else if (matchTol (buf.getD offset 0) (zeromark + excess) tolerance
        && matchTol (buf.getD (offset + 1) 0) (zerospace - excess) tolerance) = true then
      matchData buf (offset + 2) onemark onespace zeromark zerospace tolerance excess
        MSBfirst (used + 2) (data <<< 1) n
    else { data := data, used := used, success := false }

/-- Embedding of the byte-reading loop of `IRrecv::decodeSharpAc`: while
`offset <= rawlen - 16` and fewer than `nbits` iterations have run, classify
one 8-bit group; a successful group is stored into the state array and the
loop advances; the first unclassifiable group breaks out of the loop.
Returns `(state, offset, dataBitsSoFar)`. -/
def acLoop (buf : List Nat) : Nat → Nat → Nat → Nat → List Nat → List Nat × Nat × Nat
  | 0, _, offset, dataBits, state => (state, offset, dataBits)
  | fuel + 1, i, offset, dataBits, state =>
    if offset ≤ buf.length - 16 then
      let r := matchData buf offset kSharpAcBitMark kSharpAcOneSpace kSharpAcBitMark
        kSharpAcZeroSpace kTolerance kMarkExcess false 0 0 8
      if r.success = true then
        acLoop buf fuel (i + 1) (offset + r.used) (dataBits + 8) (state.set i r.data)
      else (state, offset, dataBits)
    else (state, offset, dataBits)

end IRrecv

namespace IRSharpAc

/-- Modelled from the spec: XOR-reduce the first `length` bytes of a state
array (`xorBytes` of the utility layer, outside the given source tree). -/
def xorBytes (state : List Nat) (length : Nat) : Nat :=
  (state.take length).foldl (fun a b => a ^^^ b) 0

/-- Embedding of `IRSharpAc::calcChecksum`: XOR of all bytes but the last,
XOR the low nibble of the last byte, fold the top nibble down, keep 4 bits. -/
def calcChecksum (state : List Nat) (length : Nat) : Nat :=
  let xorsum := xorBytes state (length - 1)
  let xorsum := xorsum ^^^ (state.getD (length - 1) 0 &&& 0xF)
  let xorsum := xorsum ^^^ (xorsum >>> 4)
  xorsum &&& 0xF

/-- Embedding of `IRSharpAc::validChecksum`: the stored high nibble of the
last byte must equal the computed checksum. -/
def validChecksum (state : List Nat) (length : Nat) : Bool :=
  decide ((state.getD (length - 1) 0) >>> 4 = calcChecksum state length)

/-- Embedding of `IRSharpAc::checksum`: clear the high nibble of the last
byte, then store the computed checksum there. -/
def checksum (remote : List Nat) : List Nat :=
  let remote := remote.set (kSharpAcStateLength - 1)
    ((remote.getD (kSharpAcStateLength - 1) 0) &&& 0x0F)
  remote.set (kSharpAcStateLength - 1)
    ((remote.getD (kSharpAcStateLength - 1) 0) ||| (calcChecksum remote kSharpAcStateLength <<< 4))

/-- Embedding of the array installed by `IRSharpAc::stateReset`. -/
def stateReset : List Nat :=
  [0xAA, 0x5A, 0xCF, 0x10, 0x00, 0x01, 0x00, 0x00, 0x08, 0x80, 0x00, 0xE0, 0x01]

/-- Embedding of `IRSharpAc::setRaw`: copy bytes while the index is below both
`length` and `kSharpAcStateLength`. -/
def setRaw (remote new_code : List Nat) (length : Nat) : List Nat :=
  (List.range (min length kSharpAcStateLength)).foldl
    (fun r i => r.set i (new_code.getD i 0)) remote

/-- Embedding of `IRSharpAc::getPower`. -/
def getPower (remote : List Nat) : Bool :=
  decide ((remote.getD kSharpAcBytePower 0) &&& kSharpAcBitPower ≠ 0)

/-- Embedding of `IRSharpAc::getMode`. -/
def getMode (remote : List Nat) : Nat :=
  (remote.getD kSharpAcByteMode 0) &&& kSharpAcMaskMode

/-- Embedding of `IRSharpAc::getTemp`. -/
def getTemp (remote : List Nat) : Nat :=
  ((remote.getD kSharpAcByteTemp 0) &&& kSharpAcMaskTemp) + kSharpAcMinTemp

/-- Embedding of `IRSharpAc::getFan`. -/
def getFan (remote : List Nat) : Nat :=
  ((remote.getD kSharpAcByteFan 0) &&& kSharpAcMaskFan) >>> 4

/-- Embedding of `IRSharpAc::setTemp`: in Auto or Dry mode zero the
temperature byte and the manual byte; otherwise preset the temperature byte
to `0xC0`, set the manual-temperature flag, clamp the request into
`[kSharpAcMinTemp, kSharpAcMaxTemp]` and store `clamped - kSharpAcMinTemp`
in the temperature field (`~kSharpAcMaskTemp` on a byte is `&&& 0xF0`). -/
def setTemp (remote : List Nat) (temp : Nat) : List Nat :=
  if getMode remote = kSharpAcAuto ∨ getMode remote = kSharpAcDry then
    (remote.set kSharpAcByteTemp 0).set kSharpAcByteManual 0
  else
    let r := remote.set kSharpAcByteTemp 0xC0
    let r := r.set kSharpAcByteManual
      ((r.getD kSharpAcByteManual 0) ||| kSharpAcBitTempManual)
    let degrees := min (max temp kSharpAcMinTemp) kSharpAcMaxTemp
    let r := r.set kSharpAcByteTemp ((r.getD kSharpAcByteTemp 0) &&& 0xF0)
    r.set kSharpAcByteTemp ((r.getD kSharpAcByteTemp 0) ||| (degrees - kSharpAcMinTemp))

/-- Embedding of the Auto path of `IRSharpAc::setMode` (also reached by the
fallback of the `default` branch): set then clear the non-auto marker bit
`0x20` in the power byte (`~0x20` on a byte is `&&& 0xDF`), call the
temperature setter with 0, then store the Auto mode value
(`~kSharpAcMaskMode` on a byte is `&&& 0xFC`). -/
def setModeAuto (remote : List Nat) : List Nat :=
  let r := remote.set kSharpAcBytePower ((remote.getD kSharpAcBytePower 0) ||| 0x20)
  let r := r.set kSharpAcBytePower ((r.getD kSharpAcBytePower 0) &&& 0xDF)
  let r := setTemp r 0
  r.set kSharpAcByteMode (((r.getD kSharpAcByteMode 0) &&& 0xFC) ||| kSharpAcAuto)

/-- Embedding of `IRSharpAc::setMode`: set the non-auto marker bit, then
dispatch on the mode; Auto clears the marker again; Auto and Dry call the
temperature setter with 0 before storing the mode; an unrecognized value
re-invokes the setter with Auto. -/
def setMode (remote : List Nat) (mode : Nat) : List Nat :=
  if mode = kSharpAcAuto then setModeAuto remote
  else
    let r := remote.set kSharpAcBytePower ((remote.getD kSharpAcBytePower 0) ||| 0x20)
    if mode = kSharpAcDry then
      let r := setTemp r 0
      r.set kSharpAcByteMode (((r.getD kSharpAcByteMode 0) &&& 0xFC) ||| mode)
    else if mode = kSharpAcCool ∨ mode = kSharpAcHeat then
      r.set kSharpAcByteMode (((r.getD kSharpAcByteMode 0) &&& 0xFC) ||| mode)
    else setModeAuto r

/-- Embedding of the FanAuto path of `IRSharpAc::setFan` (also reached by the
fallback of the `default` branch): set then clear the manual-fan flag
(`~0x2` on a byte is `&&& 0xFD`), then store the Auto speed in the fan field
(`~kSharpAcMaskFan` on a byte is `&&& 0x8F`). -/
def setFanAuto (remote : List Nat) : List Nat :=
  let r := remote.set kSharpAcByteManual
    ((remote.getD kSharpAcByteManual 0) ||| kSharpAcBitFanManual)
  let r := r.set kSharpAcByteManual ((r.getD kSharpAcByteManual 0) &&& 0xFD)
  r.set kSharpAcByteFan (((r.getD kSharpAcByteFan 0) &&& 0x8F) ||| (kSharpAcFanAuto <<< 4))

/-- Embedding of `IRSharpAc::setFan`: set the manual-fan flag, then dispatch
on the speed; FanAuto clears the flag again; an unrecognized value re-invokes
the setter with FanAuto. -/
def setFan (remote : List Nat) (speed : Nat) : List Nat :=
  if speed = kSharpAcFanAuto then setFanAuto remote
  else
    let r := remote.set kSharpAcByteManual
      ((remote.getD kSharpAcByteManual 0) ||| kSharpAcBitFanManual)
    if speed = kSharpAcFanMin ∨ speed = kSharpAcFanMed ∨ speed = kSharpAcFanHigh ∨
        speed = kSharpAcFanMax then
      r.set kSharpAcByteFan (((r.getD kSharpAcByteFan 0) &&& 0x8F) ||| (speed <<< 4))
    else setFanAuto r

end IRSharpAc

namespace IRrecv

/-- Embedding of `IRrecv::decodeSharpAc`: length and strict compliance
guards, header mark and space, the byte-reading loop (which stores decoded
bytes into `results.state` as it goes), footer, and in strict mode the exact
bit count and the checksum validation. -/
def decodeSharpAc (results : DecodeResults) (nbits : Nat) (strict : Bool) :
    Bool × DecodeResults :=
  if results.rawbuf.length < 2 * nbits + kHeader + kFooter - 1 then (false, results)
  else if strict = true ∧ nbits ≠ kSharpAcBits then (false, results)
  else if matchMark (results.rawbuf.getD kStartOffset 0) kSharpAcHdrMark kTolerance
      = false then (false, results)
  else if matchSpace (results.rawbuf.getD (kStartOffset + 1) 0) kSharpAcHdrSpace kTolerance
      = false then (false, results)
  else
    match acLoop results.rawbuf nbits 0 (kStartOffset + 2) 0 results.state with
    | (state, offset, dataBits) =>
      if matchMark (results.rawbuf.getD offset 0) kSharpAcBitMark kTolerance = false then
        (false, { results with state := state })
      else if offset + 1 < results.rawbuf.length ∧
          matchAtLeast (results.rawbuf.getD (offset + 1) 0) kSharpAcGap = false then
        (false, { results with state := state })
      else if strict = true ∧ dataBits ≠ kSharpAcBits then
        (false, { results with state := state })
      else if strict = true ∧ IRSharpAc.validChecksum state kSharpAcStateLength = false then
        (false, { results with state := state })
      else
        (true, { results with
          state := state
          decode_type := DecodeType.SHARP_AC
          bits := dataBits })

end IRrecv

/-! ## Arithmetic helper lemmas -/

theorem two_mul_or_one (a : Nat) : 2 * a ||| 1 = 2 * a + 1 := by
  have h := Nat.lor_bit false a true 0
  simpa [Nat.bit] using h

theorem shiftLeft_one (a : Nat) : a <<< 1 = 2 * a := by
  rw [Nat.shiftLeft_eq, pow_one, Nat.mul_comm]

theorem shiftLeft_one_or_one (a : Nat) : (a <<< 1) ||| 1 = 2 * a + 1 := by
  rw [shiftLeft_one, two_mul_or_one]

theorem or_eq_add_of_lt (n : Nat) :
    ∀ x y : Nat, y < 2 ^ n → (x * 2 ^ n) ||| y = x * 2 ^ n + y := by
  induction n with
  | zero =>
    intro x y hy
    interval_cases y
    simp
  | succ n ih =>
    intro x y hy
    have hx : x * 2 ^ (n + 1) = Nat.bit false (x * 2 ^ n) := by
      simp [Nat.bit, Nat.pow_succ]
      ring
    have hy2 : y = Nat.bit (decide (y % 2 = 1)) (y >>> 1) :=
      (Nat.bit_decide_mod_two_eq_one_shiftRight_one y).symm
    rw [hx, hy2, Nat.lor_bit]
    have hlt : y >>> 1 < 2 ^ n := by
      rw [Nat.shiftRight_one]
      omega
    rw [Bool.false_or, ih _ _ hlt]
    rcases Nat.mod_two_eq_zero_or_one y with h | h <;>
      simp [Nat.bit, h, Nat.shiftRight_one, Nat.pow_succ] <;> omega

theorem reverseBits_lt (n : Nat) : ∀ x, reverseBits x n < 2 ^ n := by
  induction n with
  | zero => intro x; simp [reverseBits]
  | succ n ih =>
    intro x
    have h1 := ih (x / 2)
    have h2 : x % 2 < 2 := Nat.mod_lt _ (by norm_num)
    simp only [reverseBits, Nat.pow_succ]
    nlinarith

theorem reverseBits_split (m : Nat) :
    ∀ x n, reverseBits x (m + n) =
      reverseBits (x % 2 ^ m) m * 2 ^ n + reverseBits (x / 2 ^ m) n := by
  induction m with
  | zero => intro x n; simp [reverseBits]
  | succ m ih =>
    intro x n
    have e1 : m + 1 + n = (m + n) + 1 := by omega
    rw [e1]
    show x % 2 * 2 ^ (m + n) + reverseBits (x / 2) (m + n) = _
    rw [ih (x / 2) n]
    have d1 : x % 2 ^ (m + 1) % 2 = x % 2 :=
      Nat.mod_mod_of_dvd x (Dvd.intro_left (2 ^ m) (Nat.pow_succ 2 m).symm)
    have d2 : x % 2 ^ (m + 1) / 2 = x / 2 % 2 ^ m := by
      rw [← Nat.mod_mul_right_div_self, Nat.mul_comm 2 (2 ^ m), ← Nat.pow_succ]
    have d3 : x / 2 ^ (m + 1) = x / 2 / 2 ^ m := by
      rw [Nat.div_div_eq_div_mul, Nat.mul_comm 2 (2 ^ m), ← Nat.pow_succ]
    show _ = (x % 2 ^ (m + 1) % 2 * 2 ^ m + reverseBits (x % 2 ^ (m + 1) / 2) m) * 2 ^ n +
      reverseBits (x / 2 ^ (m + 1)) n
    rw [d1, d2, d3, Nat.pow_add]
    ring

/-! ## Captured-frame infrastructure for the round-trip proof -/

/-- Captured raw-tick entries of the data section of a Sharp half-frame sent
with nominal timings: each bit is a 130-entry mark plus a 910 (one) or 390
(zero) entry space. -/
def capturedBits (bs : List Bool) : List Nat :=
  bs.flatMap fun b => [130, if b then 910 else 390]

/-- Value accumulated by the decoder's bit loop over a list of bits. -/
def foldBits (acc : Nat) : List Bool → Nat
  | [] => acc
  | b :: bs => foldBits (if b then (acc <<< 1) ||| 1 else acc <<< 1) bs

theorem getD_append_self (pre l : List Nat) (x : Nat) :
    (pre ++ x :: l).getD pre.length 0 = x := by
  induction pre with
  | nil => rfl
  | cons a as ih => simpa using ih

theorem getD_append_succ (pre l : List Nat) (x y : Nat) :
    (pre ++ x :: y :: l).getD (pre.length + 1) 0 = y := by
  have h := getD_append_self (pre ++ [x]) l y
  simpa using h

theorem capturedBits_length (bs : List Bool) : (capturedBits bs).length = 2 * bs.length := by
  induction bs with
  | nil => simp [capturedBits]
  | cons b bs ih => simp [capturedBits] at ih ⊢; omega

theorem msbBits_length (d : Nat) : ∀ n, (IRsend.msbBits d n).length = n := by
  intro n
  induction n with
  | zero => simp [IRsend.msbBits]
  | succ n ih => simp [IRsend.msbBits, ih]

theorem foldBits_msbBits (d : Nat) :
    ∀ n acc, foldBits acc (IRsend.msbBits d n) = acc * 2 ^ n + d % 2 ^ n := by
  intro n
  induction n with
  | zero => intro acc; simp [IRsend.msbBits, foldBits, Nat.mod_one]
  | succ n ih =>
    intro acc
    have hbit : d.testBit n = decide (d / 2 ^ n % 2 = 1) := Nat.testBit_to_div_mod
    have hmod : d % 2 ^ (n + 1) = d % 2 ^ n + 2 ^ n * (d / 2 ^ n % 2) := Nat.mod_pow_succ
    show foldBits _ (d.testBit n :: IRsend.msbBits d n) = _
    rcases Nat.mod_two_eq_zero_or_one (d / 2 ^ n) with h | h
    · have hb : d.testBit n = false := by rw [hbit, h]; simp
      show foldBits (if d.testBit n then (acc <<< 1) ||| 1 else acc <<< 1) _ = _
      rw [hb, if_neg (by simp), shiftLeft_one, ih, hmod, h, Nat.pow_succ]
      ring
    · have hb : d.testBit n = true := by rw [hbit, h]; simp
      show foldBits (if d.testBit n then (acc <<< 1) ||| 1 else acc <<< 1) _ = _
      rw [hb, if_pos rfl, shiftLeft_one_or_one, ih, hmod, h, Nat.pow_succ]
      ring

theorem readBits_captured (bs : List Bool) :
    ∀ (pre rest : List Nat) (acc : Nat),
      IRrecv.readBits (pre ++ (capturedBits bs ++ rest)) 26 pre.length acc bs.length =
        some (foldBits acc bs, pre.length + 2 * bs.length) := by
  induction bs with
  | nil => intro pre rest acc; simp [capturedBits, IRrecv.readBits, foldBits]
  | cons b bs ih =>
    intro pre rest acc
    cases b with
    | false =>
      have hcap : capturedBits (false :: bs) ++ rest
          = (130 : Nat) :: 390 :: (capturedBits bs ++ rest) := by simp [capturedBits]
      have h0 : (pre ++ (capturedBits (false :: bs) ++ rest)).getD pre.length 0 = 130 := by
        rw [hcap]; exact getD_append_self pre _ 130
      have h1 : (pre ++ (capturedBits (false :: bs) ++ rest)).getD (pre.length + 1) 0 = 390 := by
        rw [hcap]; exact getD_append_succ pre _ 130 390
      have hre : pre ++ (capturedBits (false :: bs) ++ rest)
          = (pre ++ [130, 390]) ++ (capturedBits bs ++ rest) := by
        rw [hcap]; simp
      show IRrecv.readBits _ 26 pre.length acc (bs.length + 1) = _
      rw [IRrecv.readBits, h0, h1, if_pos (by decide), if_neg (by decide),
        if_pos (by decide), hre]
      have h2 := ih (pre ++ [(130 : Nat), 390]) rest (acc <<< 1)
      rw [show (pre ++ [(130 : Nat), 390]).length = pre.length + 2 by simp] at h2
      rw [h2]
      simp only [Option.some.injEq, Prod.mk.injEq, foldBits, List.length_cons]
      exact ⟨by norm_num, by omega⟩
    | true =>
      have hcap : capturedBits (true :: bs) ++ rest
          = (130 : Nat) :: 910 :: (capturedBits bs ++ rest) := by simp [capturedBits]
      have h0 : (pre ++ (capturedBits (true :: bs) ++ rest)).getD pre.length 0 = 130 := by
        rw [hcap]; exact getD_append_self pre _ 130
      have h1 : (pre ++ (capturedBits (true :: bs) ++ rest)).getD (pre.length + 1) 0 = 910 := by
        rw [hcap]; exact getD_append_succ pre _ 130 910
      have hre : pre ++ (capturedBits (true :: bs) ++ rest)
          = (pre ++ [130, 910]) ++ (capturedBits bs ++ rest) := by
        rw [hcap]; simp
      show IRrecv.readBits _ 26 pre.length acc (bs.length + 1) = _
      rw [IRrecv.readBits, h0, h1, if_pos (by decide), if_pos (by decide), hre]
      have h2 := ih (pre ++ [(130 : Nat), 910]) rest ((acc <<< 1) ||| 1)
      rw [show (pre ++ [(130 : Nat), 910]).length = pre.length + 2 by simp] at h2
      rw [h2]
      simp only [Option.some.injEq, Prod.mk.injEq, foldBits, List.length_cons]
      exact ⟨by norm_num, by omega⟩

set_option maxRecDepth 4000

theorem rev_rev_5 : ∀ a < 32, reverseBits (reverseBits a 5) 5 = a := by decide

theorem rev_rev_8 : ∀ c < 256, reverseBits (reverseBits c 8) 8 = c := by decide

theorem encode_decomp (a c e : Nat) (ha : a < 32) (hc : c < 256) (he : e < 2) :
    IRsend.encodeSharp a c e 0 false
      = reverseBits a 5 * 1024 + reverseBits c 8 * 4 + 2 * e := by
  have hC := reverseBits_lt 8 c
  unfold IRsend.encodeSharp
  simp only [Bool.false_eq_true, if_false]
  rw [show (2 : Nat) ^ kSharpAddressBits = 32 from rfl,
    show (2 : Nat) ^ kSharpCommandBits = 256 from rfl,
    Nat.mod_eq_of_lt ha, Nat.mod_eq_of_lt hc, Nat.mod_eq_of_lt he,
    show (0 : Nat) % 2 = 0 from rfl]
  rw [show kSharpCommandBits + 2 = 10 from rfl, Nat.shiftLeft_eq, Nat.shiftLeft_eq,
    Nat.shiftLeft_eq, Nat.or_zero]
  have s1 : reverseBits a kSharpAddressBits * 2 ^ 10 ||| reverseBits c kSharpCommandBits * 2 ^ 2
      = reverseBits a kSharpAddressBits * 2 ^ 10 + reverseBits c kSharpCommandBits * 2 ^ 2 :=
    or_eq_add_of_lt 10 _ _ (by
      rw [show kSharpCommandBits = 8 from rfl]
      norm_num
      omega)
  rw [s1]
  have e2 : reverseBits a kSharpAddressBits * 2 ^ 10 + reverseBits c kSharpCommandBits * 2 ^ 2
      = (reverseBits a kSharpAddressBits * 2 ^ 8 + reverseBits c kSharpCommandBits) * 2 ^ 2 := by
    ring
  have s2 : (reverseBits a kSharpAddressBits * 2 ^ 8 + reverseBits c kSharpCommandBits) * 2 ^ 2
        ||| e * 2 ^ 1
      = (reverseBits a kSharpAddressBits * 2 ^ 8 + reverseBits c kSharpCommandBits) * 2 ^ 2
        + e * 2 ^ 1 :=
    or_eq_add_of_lt 2 _ _ (by norm_num; omega)
  rw [e2, s2, show kSharpAddressBits = 5 from rfl, show kSharpCommandBits = 8 from rfl]
  ring

theorem encode_lt (a c e : Nat) (ha : a < 32) (hc : c < 256) (he : e < 2) :
    IRsend.encodeSharp a c e 0 false < 2 ^ 15 := by
  rw [encode_decomp a c e ha hc he]
  have hA := reverseBits_lt 5 a
  have hC := reverseBits_lt 8 c
  norm_num at hA hC ⊢
  omega

theorem encode_check_bit (a c e : Nat) (ha : a < 32) (hc : c < 256) (he : e < 2) :
    IRsend.encodeSharp a c e 0 false &&& 1 = 0 := by
  rw [Nat.and_one_is_mod, encode_decomp a c e ha hc he]
  omega

theorem encode_expansion_bit (a c e : Nat) (ha : a < 32) (hc : c < 256) (he : e < 2) :
    (IRsend.encodeSharp a c e 0 false &&& 2) >>> 1 = e := by
  have hd2 : IRsend.encodeSharp a c e 0 false / 2 % 2 = e := by
    rw [encode_decomp a c e ha hc he]; omega
  have h2 : IRsend.encodeSharp a c e 0 false &&& 2
      = ((IRsend.encodeSharp a c e 0 false).testBit 1).toNat * 2 := by
    have := Nat.and_two_pow (IRsend.encodeSharp a c e 0 false) 1
    simpa using this
  rw [h2, Nat.testBit_to_div_mod]
  interval_cases e
  · rw [show (2 : Nat) ^ 1 = 2 from rfl, hd2]
    norm_num
  · rw [show (2 : Nat) ^ 1 = 2 from rfl, hd2]
    norm_num [Nat.shiftRight_one]

theorem encode_address (a c e : Nat) (ha : a < 32) (hc : c < 256) (he : e < 2) :
    reverseBits (IRsend.encodeSharp a c e 0 false) kSharpBits &&& kSharpAddressMask = a := by
  have hA := reverseBits_lt 5 a
  have hC := reverseBits_lt 8 c
  norm_num at hA hC
  rw [encode_decomp a c e ha hc he, show kSharpBits = 10 + 5 from rfl, reverseBits_split]
  have h1 : (reverseBits a 5 * 1024 + reverseBits c 8 * 4 + 2 * e) % 2 ^ 10
      = reverseBits c 8 * 4 + 2 * e := by norm_num; omega
  have h2 : (reverseBits a 5 * 1024 + reverseBits c 8 * 4 + 2 * e) / 2 ^ 10
      = reverseBits a 5 := by norm_num; omega
  rw [h1, h2, show kSharpAddressMask = 2 ^ 5 - 1 from rfl, Nat.and_pow_two_sub_one_eq_mod]
  have hrr := rev_rev_5 a ha
  have hlt := reverseBits_lt 5 (reverseBits a 5)
  norm_num at hlt ⊢
  omega

theorem encode_command (a c e : Nat) (ha : a < 32) (hc : c < 256) (he : e < 2) :
    reverseBits ((IRsend.encodeSharp a c e 0 false >>> 2) &&& kSharpCommandMask)
      kSharpCommandBits = c := by
  have hC := reverseBits_lt 8 c
  norm_num at hC
  rw [encode_decomp a c e ha hc he, Nat.shiftRight_eq_div_pow]
  have h1 : (reverseBits a 5 * 1024 + reverseBits c 8 * 4 + 2 * e) / 2 ^ 2
      = reverseBits a 5 * 256 + reverseBits c 8 := by norm_num; omega
  rw [h1, show kSharpCommandMask = 2 ^ 8 - 1 from rfl, Nat.and_pow_two_sub_one_eq_mod]
  have h4 : (reverseBits a 5 * 256 + reverseBits c 8) % 2 ^ 8 = reverseBits c 8 := by
    norm_num; omega
  rw [h4, show kSharpCommandBits = 8 from rfl]
  exact rev_rev_8 c hc

theorem map_capture_frame (x n : Nat) :
    (IRsend.sendGenericSharp x n).map (· / kRawTick)
      = capturedBits (IRsend.msbBits x n) ++ [130, 21801] := by
  unfold IRsend.sendGenericSharp
  generalize IRsend.msbBits x n = bs
  induction bs with
  | nil => simp [capturedBits]; constructor <;> rfl
  | cons b bs ih =>
    cases b <;>
      simpa [capturedBits, kSharpBitMark, kSharpOneSpace, kSharpZeroSpace, kSharpTick,
        kSharpBitMarkTicks, kSharpOneSpaceTicks, kSharpZeroSpaceTicks, kRawTick] using ih

theorem decode_send (d : Nat) (hd : d < 32768) (exp ut : Bool)
    (hexp : (d &&& 2) >>> 1 = (if exp then 1 else 0)) (hck : d &&& 1 = 0)
    (r0 : DecodeResults) :
    IRrecv.decodeSharp (capture (IRsend.sendSharpRaw d 15 0) r0) 15 true exp ut
      = IRrecv.sharpSuccess (capture (IRsend.sendSharpRaw d 15 0) r0) 15 d := by
  have hsend : IRsend.sendSharpRaw d 15 0
      = IRsend.sendGenericSharp d 15 ++ IRsend.sendGenericSharp (d ^^^ kSharpToggleMask) 15 := by
    simp [IRsend.sendSharpRaw, IRsend.sendSharpLoop, IRsend.sendSharpInner]
  have htog : d ^^^ kSharpToggleMask < 32768 :=
    Nat.xor_lt_two_pow (n := 15) hd (by decide)
  have hbuf : (capture (IRsend.sendSharpRaw d 15 0) r0).rawbuf
      = [0] ++ (capturedBits (IRsend.msbBits d 15)
        ++ ((130 : Nat) :: (21801 : Nat)
          :: (capturedBits (IRsend.msbBits (d ^^^ kSharpToggleMask) 15) ++ [130, 21801]))) := by
    show (0 : Nat) :: (IRsend.sendSharpRaw d 15 0).map (· / kRawTick) = _
    rw [hsend, List.map_append, map_capture_frame, map_capture_frame]
    simp
  have hlen : (capture (IRsend.sendSharpRaw d 15 0) r0).rawbuf.length = 65 := by
    rw [hbuf]
    simp [capturedBits_length, msbBits_length]
  have hget1 : (capture (IRsend.sendSharpRaw d 15 0) r0).rawbuf.getD 1 0 = 130 := by
    rw [hbuf, show IRsend.msbBits d 15 = d.testBit 14 :: IRsend.msbBits d 14 from rfl]
    show ((0 : Nat) :: (130 : Nat) :: _).getD 1 0 = 130
    rfl
  have hread1 : IRrecv.readBits (capture (IRsend.sendSharpRaw d 15 0) r0).rawbuf 26 1 0 15
      = some (d, 31) := by
    rw [hbuf]
    have h := readBits_captured (IRsend.msbBits d 15) [0]
      ((130 : Nat) :: (21801 : Nat)
        :: (capturedBits (IRsend.msbBits (d ^^^ kSharpToggleMask) 15) ++ [130, 21801])) 0
    rw [msbBits_length, foldBits_msbBits] at h
    simpa [Nat.mod_eq_of_lt hd] using h
  have hpre2 : ((([0] : List Nat) ++ capturedBits (IRsend.msbBits d 15))).length = 31 := by
    simp [capturedBits_length, msbBits_length]
  have hget31 : (capture (IRsend.sendSharpRaw d 15 0) r0).rawbuf.getD 31 0 = 130 := by
    have h := getD_append_self ([0] ++ capturedBits (IRsend.msbBits d 15))
      ((21801 : Nat) :: (capturedBits (IRsend.msbBits (d ^^^ kSharpToggleMask) 15)
        ++ [130, 21801])) 130
    rw [hpre2] at h
    rw [hbuf]
    simpa using h
  have hget32 : (capture (IRsend.sendSharpRaw d 15 0) r0).rawbuf.getD 32 0 = 21801 := by
    have h := getD_append_succ ([0] ++ capturedBits (IRsend.msbBits d 15))
      (capturedBits (IRsend.msbBits (d ^^^ kSharpToggleMask) 15) ++ [130, 21801]) 130 21801
    rw [hpre2] at h
    rw [hbuf]
    simpa using h
  have hpre3 : (([0] : List Nat) ++ capturedBits (IRsend.msbBits d 15) ++ [130, 21801]
      ++ capturedBits (IRsend.msbBits (d ^^^ kSharpToggleMask) 15)).length = 63 := by
    simp [capturedBits_length, msbBits_length]
  have hread2 : IRrecv.readBits (capture (IRsend.sendSharpRaw d 15 0) r0).rawbuf 26 33 0 15
      = some (d ^^^ kSharpToggleMask, 63) := by
    have h := readBits_captured (IRsend.msbBits (d ^^^ kSharpToggleMask) 15)
      ([0] ++ capturedBits (IRsend.msbBits d 15) ++ [130, 21801]) [130, 21801] 0
    have hlen33 : (([0] : List Nat) ++ capturedBits (IRsend.msbBits d 15)
        ++ [130, 21801]).length = 33 := by
      simp [capturedBits_length, msbBits_length]
    rw [msbBits_length, foldBits_msbBits, hlen33] at h
    rw [hbuf]
    have he : (([0] : List Nat) ++ capturedBits (IRsend.msbBits d 15) ++ [130, 21801])
        ++ (capturedBits (IRsend.msbBits (d ^^^ kSharpToggleMask) 15) ++ [130, 21801])
        = [0] ++ (capturedBits (IRsend.msbBits d 15)
          ++ ((130 : Nat) :: (21801 : Nat)
            :: (capturedBits (IRsend.msbBits (d ^^^ kSharpToggleMask) 15) ++ [130, 21801]))) := by
      simp
    rw [he] at h
    simpa [Nat.mod_eq_of_lt htog] using h
  have hget63 : (capture (IRsend.sendSharpRaw d 15 0) r0).rawbuf.getD 63 0 = 130 := by
    have h := getD_append_self ([0] ++ capturedBits (IRsend.msbBits d 15) ++ [130, 21801]
      ++ capturedBits (IRsend.msbBits (d ^^^ kSharpToggleMask) 15)) [21801] 130
    rw [hpre3] at h
    rw [hbuf]
    simpa using h
  have hget64 : (capture (IRsend.sendSharpRaw d 15 0) r0).rawbuf.getD 64 0 = 21801 := by
    have h := getD_append_succ ([0] ++ capturedBits (IRsend.msbBits d 15) ++ [130, 21801]
      ++ capturedBits (IRsend.msbBits (d ^^^ kSharpToggleMask) 15)) [] 130 21801
    rw [hpre3] at h
    rw [hbuf]
    simpa using h
  have htick : IRrecv.tickOf (capture (IRsend.sendSharpRaw d 15 0) r0) = 26 := by
    unfold IRrecv.tickOf
    rw [show kStartOffset = 1 from rfl, hget1]
    decide
  unfold IRrecv.decodeSharp
  rw [hlen, if_neg (by decide), if_neg (by decide),
    if_neg (fun hcon => absurd hcon.2.2 (by decide)),
    show kStartOffset = 1 from rfl, hget1, if_neg (by decide), htick]
  rw [hread1, IRrecv.decodeSharpData, htick, hlen, hget31, if_neg (by decide),
    show (31 : Nat) + 1 = 32 from rfl, hget32, if_neg (by decide)]
  rw [if_neg (by
    intro hcon
    exact hcon.2 hexp)]
  rw [if_neg (by
    intro hcon
    exact hcon.2 hck)]
  cases ut with
  | false =>
    rw [if_neg (by simp)]
  | true =>
    rw [if_pos ⟨rfl, rfl⟩, if_neg (by decide)]
    rw [show (31 : Nat) + 2 = 33 from rfl, hread2, IRrecv.decodeSharpSecond, htick, hlen,
      hget63, if_neg (by decide), show (63 : Nat) + 1 = 64 from rfl, hget64,
      if_neg (by decide)]
    rw [if_neg (by
      rw [Nat.xor_cancel_right]
      exact fun hcon => hcon rfl)]

theorem sendSharpLoop_eq (data nbits : Nat) :
    ∀ k, IRsend.sendSharpLoop data nbits k
      = ((List.replicate k (IRsend.sendGenericSharp data nbits
          ++ IRsend.sendGenericSharp (data ^^^ kSharpToggleMask) nbits)).flatten, data) := by
  intro k
  induction k with
  | zero => simp [IRsend.sendSharpLoop]
  | succ k ih =>
    simp [IRsend.sendSharpLoop, IRsend.sendSharpInner, Nat.xor_cancel_right, ih,
      List.replicate_succ]

theorem readBits_offset (rawbuf : List Nat) (tick : Nat) :
    ∀ n offset acc data off', IRrecv.readBits rawbuf tick offset acc n = some (data, off')
      → off' = offset + 2 * n := by
  intro n
  induction n with
  | zero =>
    intro offset acc data off' h
    unfold IRrecv.readBits at h
    injection h with h1
    injection h1 with _ h2
    omega
  | succ n ih =>
    intro offset acc data off' h
    unfold IRrecv.readBits at h
    split at h
    · split at h
      · have := ih (offset + 2) _ _ _ h
        omega
      · split at h
        · have := ih (offset + 2) _ _ _ h
          omega
        · exact absurd h (by simp)
    · exact absurd h (by simp)

/-- Example `decode_results` record used to instantiate concrete decoder runs:
empty capture, cleared output fields, a zeroed 53-byte state buffer. -/
def sampleResults : DecodeResults :=
  { rawbuf := [], decode_type := DecodeType.UNKNOWN, value := 0, address := 0,
    command := 0, bits := 0, state := List.replicate 53 0 }

/-- C1: for every address below `2^5`, command below `2^8` and expansion bit in
`{0, 1}` (with check bit 0), strict decoding (with the expected expansion bit,
in either build configuration) of the captured pulse train produced by
`sendSharpRaw (encodeSharp address command expansion 0 LSB-first) kSharpBits 0`
succeeds and returns the original address and command. -/
theorem sharp_roundtrip (a c e : Nat) (ut : Bool) (r0 : DecodeResults)
    (ha : a < 2 ^ kSharpAddressBits) (hc : c < 2 ^ kSharpCommandBits) (he : e < 2) :
    (IRrecv.decodeSharp (capture (IRsend.sendSharpRaw (IRsend.encodeSharp a c e 0 false)
        kSharpBits 0) r0) kSharpBits true (e == 1) ut).1 = true ∧
    (IRrecv.decodeSharp (capture (IRsend.sendSharpRaw (IRsend.encodeSharp a c e 0 false)
        kSharpBits 0) r0) kSharpBits true (e == 1) ut).2.address = a ∧
    (IRrecv.decodeSharp (capture (IRsend.sendSharpRaw (IRsend.encodeSharp a c e 0 false)
        kSharpBits 0) r0) kSharpBits true (e == 1) ut).2.command = c := by
  have ha' : a < 32 := ha
  have hc' : c < 256 := hc
  have hexp : (IRsend.encodeSharp a c e 0 false &&& 2) >>> 1 = (if e == 1 then 1 else 0) := by
    rw [encode_expansion_bit a c e ha' hc' he]
    interval_cases e <;> rfl
  have heq := decode_send (IRsend.encodeSharp a c e 0 false)
    (encode_lt a c e ha' hc' he) (e == 1) ut hexp
    (encode_check_bit a c e ha' hc' he) r0
  rw [show kSharpBits = 15 from rfl, heq]
  refine ⟨rfl, ?_, ?_⟩
  · exact encode_address a c e ha' hc' he
  · exact encode_command a c e ha' hc' he

/-- Witness for C1 at address 21, command 74, expansion 1, check 0. -/
theorem sharp_roundtrip_witness :
    (21 < 2 ^ kSharpAddressBits ∧ 74 < 2 ^ kSharpCommandBits ∧ 1 < 2) ∧
    ((IRrecv.decodeSharp (capture (IRsend.sendSharpRaw (IRsend.encodeSharp 21 74 1 0 false)
        kSharpBits 0) sampleResults) kSharpBits true (1 == 1) false).1 = true ∧
    (IRrecv.decodeSharp (capture (IRsend.sendSharpRaw (IRsend.encodeSharp 21 74 1 0 false)
        kSharpBits 0) sampleResults) kSharpBits true (1 == 1) false).2.address = 21 ∧
    (IRrecv.decodeSharp (capture (IRsend.sendSharpRaw (IRsend.encodeSharp 21 74 1 0 false)
        kSharpBits 0) sampleResults) kSharpBits true (1 == 1) false).2.command = 74) :=
  ⟨⟨by decide, by decide, by decide⟩,
    sharp_roundtrip 21 74 1 false sampleResults (by decide) (by decide) (by decide)⟩

/-- C5: `sendSharpRaw data nbits repeat` performs exactly `repeat + 1`
repetitions, each transmitting the half-frame pulse train twice back-to-back —
first for the unmodified data, then for `data ^^^ kSharpToggleMask` (the
half-frame itself having no header and ending in the closing mark and fixed
gap) — and the threaded local data value is restored when the loop finishes. -/
theorem sendSharpRaw_repeats (data nbits repeatN : Nat) :
    IRsend.sendSharpRaw data nbits repeatN
      = (List.replicate (repeatN + 1) (IRsend.sendGenericSharp data nbits
          ++ IRsend.sendGenericSharp (data ^^^ kSharpToggleMask) nbits)).flatten
    ∧ (IRsend.sendSharpLoop data nbits (repeatN + 1)).2 = data :=
  ⟨congrArg Prod.fst (sendSharpLoop_eq data nbits (repeatN + 1)),
    congrArg Prod.snd (sendSharpLoop_eq data nbits (repeatN + 1))⟩

theorem decodeSharpSecond_shape (r : DecodeResults) (nbits data : Nat)
    (o : Option (Nat × Nat)) :
    IRrecv.decodeSharpSecond r nbits data o = (false, r) ∨
    (∃ second offset2, o = some (second, offset2) ∧ data = second ^^^ kSharpToggleMask ∧
      IRrecv.decodeSharpSecond r nbits data o = IRrecv.sharpSuccess r nbits data) := by
  match o with
  | none => exact Or.inl rfl
  | some (second, offset2) =>
    rw [IRrecv.decodeSharpSecond]
    by_cases h1 : IRrecv.matchTol (r.rawbuf.getD offset2 0)
        (kSharpBitMarkTicks * IRrecv.tickOf r) kTolerance = false
    · rw [if_pos h1]; exact Or.inl rfl
    · rw [if_neg h1]
      by_cases h2 : offset2 + 1 < r.rawbuf.length ∧
          IRrecv.matchAtLeast (r.rawbuf.getD (offset2 + 1) 0)
            (kSharpGapTicks * IRrecv.tickOf r) = false
      · rw [if_pos h2]; exact Or.inl rfl
      · rw [if_neg h2]
        by_cases h3 : data ≠ second ^^^ kSharpToggleMask
        · rw [if_pos h3]; exact Or.inl rfl
        · rw [if_neg h3]
          exact Or.inr ⟨second, offset2, rfl, not_not.mp h3, rfl⟩

theorem decodeSharpData_shape (r : DecodeResults) (nbits : Nat) (strict e ut : Bool)
    (o : Option (Nat × Nat)) :
    IRrecv.decodeSharpData r nbits strict e ut o = (false, r) ∨
    (∃ data offset, o = some (data, offset) ∧
      IRrecv.decodeSharpData r nbits strict e ut o = IRrecv.sharpSuccess r nbits data ∧
      (strict = true → (data &&& 2) >>> 1 = (if e then 1 else 0) ∧ data &&& 1 = 0) ∧
      (strict = true → ut = true →
        ∃ second offset2,
          IRrecv.readBits r.rawbuf (IRrecv.tickOf r) (offset + 2) 0 nbits
            = some (second, offset2) ∧ data = second ^^^ kSharpToggleMask)) := by
  match o with
  | none => exact Or.inl rfl
  | some (data, offset) =>
    rw [IRrecv.decodeSharpData]
    by_cases h1 : IRrecv.matchTol (r.rawbuf.getD offset 0)
        (kSharpBitMarkTicks * IRrecv.tickOf r) kTolerance = false
    · rw [if_pos h1]; exact Or.inl rfl
    · rw [if_neg h1]
      by_cases h2 : offset + 1 < r.rawbuf.length ∧
          IRrecv.matchAtLeast (r.rawbuf.getD (offset + 1) 0)
            (kSharpGapTicks * IRrecv.tickOf r) = false
      · rw [if_pos h2]; exact Or.inl rfl
      · rw [if_neg h2]
        by_cases h3 : strict = true ∧ (data &&& 2) >>> 1 ≠ (if e then 1 else 0)
        · rw [if_pos h3]; exact Or.inl rfl
        · rw [if_neg h3]
          by_cases h4 : strict = true ∧ data &&& 1 ≠ 0
          · rw [if_pos h4]; exact Or.inl rfl
          · rw [if_neg h4]
            have hbits : strict = true → (data &&& 2) >>> 1 = (if e then 1 else 0)
                ∧ data &&& 1 = 0 := by
              intro hs
              constructor
              · by_contra hne
                exact h3 ⟨hs, hne⟩
              · by_contra hne
                exact h4 ⟨hs, hne⟩
            by_cases h5 : strict = true ∧ ut = true
            · rw [if_pos h5]
              by_cases h6 : IRrecv.matchSpace (r.rawbuf.getD (offset + 1) 0)
                  (kSharpGapTicks * IRrecv.tickOf r) kTolerance = false
              · rw [if_pos h6]; exact Or.inl rfl
              · rw [if_neg h6]
                rcases decodeSharpSecond_shape r nbits data
                    (IRrecv.readBits r.rawbuf (IRrecv.tickOf r) (offset + 2) 0 nbits)
                  with hs1 | ⟨second, offset2, ho, hxor, hs2⟩
                · exact Or.inl hs1
                · exact Or.inr ⟨data, offset, rfl, hs2, hbits,
                    fun _ _ => ⟨second, offset2, ho, hxor⟩⟩
            · rw [if_neg h5]
              exact Or.inr ⟨data, offset, rfl, rfl, hbits,
                fun hs hu => absurd ⟨hs, hu⟩ h5⟩

theorem decodeSharp_shape (r : DecodeResults) (nbits : Nat) (strict e ut : Bool) :
    IRrecv.decodeSharp r nbits strict e ut = (false, r) ∨
    (∃ data offset,
      IRrecv.readBits r.rawbuf (IRrecv.tickOf r) kStartOffset 0 nbits
        = some (data, offset) ∧
      IRrecv.decodeSharp r nbits strict e ut = IRrecv.sharpSuccess r nbits data ∧
      (strict = true → (data &&& 2) >>> 1 = (if e then 1 else 0) ∧ data &&& 1 = 0) ∧
      (strict = true → ut = true →
        2 * (2 * nbits + kFooter) ≤ r.rawbuf.length ∧
        ∃ second offset2,
          IRrecv.readBits r.rawbuf (IRrecv.tickOf r) (offset + 2) 0 nbits
            = some (second, offset2) ∧ data = second ^^^ kSharpToggleMask)) := by
  unfold IRrecv.decodeSharp
  by_cases g1 : r.rawbuf.length < 2 * nbits + kFooter - 1
  · rw [if_pos g1]; exact Or.inl rfl
  · rw [if_neg g1]
    by_cases g2 : strict = true ∧ nbits ≠ kSharpBits
    · rw [if_pos g2]; exact Or.inl rfl
    · rw [if_neg g2]
      by_cases g3 : strict = true ∧ ut = true ∧
          r.rawbuf.length < 2 * (2 * nbits + kFooter)
      · rw [if_pos g3]; exact Or.inl rfl
      · rw [if_neg g3]
        by_cases g4 : IRrecv.matchMark (r.rawbuf.getD kStartOffset 0) kSharpBitMark 35
            = false
        · rw [if_pos g4]; exact Or.inl rfl
        · rw [if_neg g4]
          rcases decodeSharpData_shape r nbits strict e ut
              (IRrecv.readBits r.rawbuf (IRrecv.tickOf r) kStartOffset 0 nbits)
            with hs1 | ⟨data, offset, ho, heq, hbits, hsec⟩
          · exact Or.inl hs1
          · refine Or.inr ⟨data, offset, ho, heq, hbits, fun hs hu => ?_⟩
            refine ⟨?_, (hsec hs hu).elim fun second h => ⟨second, h⟩⟩
            by_contra hlt
            exact g3 ⟨hs, hu, by omega⟩

/-- C2 (amended): every failing `decodeSharp` call leaves the results record
untouched; a failing `decodeSharpAc` call leaves `value`, `address`,
`command`, `bits` and `decode_type` untouched (its byte loop may however have
written decoded bytes into `state` before the failure). -/
theorem decode_failure_preserves_fields :
    (∀ r nbits strict expansion ut r',
      IRrecv.decodeSharp r nbits strict expansion ut = (false, r') → r' = r) ∧
    (∀ r nbits strict r', IRrecv.decodeSharpAc r nbits strict = (false, r') →
      r'.value = r.value ∧ r'.address = r.address ∧ r'.command = r.command ∧
      r'.bits = r.bits ∧ r'.decode_type = r.decode_type) := by
  constructor
  · intro r nbits strict expansion ut r' h
    rcases decodeSharp_shape r nbits strict expansion ut with hc | ⟨data, _, _, hc, _, _⟩
    · rw [hc] at h
      injection h with h1 h2
      exact h2.symm
    · rw [hc] at h
      unfold IRrecv.sharpSuccess at h
      injection h with h1 h2
      exact Bool.noConfusion h1
  · intro r nbits strict r' h
    unfold IRrecv.decodeSharpAc at h
    repeat' split at h
    all_goals injection h with h1 h2
    all_goals
      first
      | exact Bool.noConfusion h1
      | (subst h2; exact ⟨rfl, rfl, rfl, rfl, rfl⟩)

/-- Concrete failing strict A/C decode: the capture of the transmitted
default-reset state, whose stored checksum nibble is stale. -/
def acFailExample : DecodeResults :=
  capture (IRsend.sendSharpAc IRSharpAc.stateReset) sampleResults

/-- C2 counterexample: the strict `decodeSharpAc` run on the captured
default-reset message returns `false` (its checksum is invalid), yet the
decoded bytes have been written into `results.state`, so an output field
differs from its value before the call. -/
theorem decodeSharpAc_failure_writes_state :
    (IRrecv.decodeSharpAc acFailExample kSharpAcBits true).1 = false ∧
    (IRrecv.decodeSharpAc acFailExample kSharpAcBits true).2.state ≠ acFailExample.state := by
  decide

/-- Witness for C2 (amended): a concrete failing `decodeSharp` call (empty
capture) preserves the whole record, and a concrete failing `decodeSharpAc`
call preserves `value`, `address`, `command`, `bits` and `decode_type`. -/
theorem decode_failure_preserves_fields_witness :
    (IRrecv.decodeSharp sampleResults kSharpBits true true false).2 = sampleResults ∧
    ((IRrecv.decodeSharpAc acFailExample kSharpAcBits true).2.value = acFailExample.value ∧
      (IRrecv.decodeSharpAc acFailExample kSharpAcBits true).2.address
        = acFailExample.address ∧
      (IRrecv.decodeSharpAc acFailExample kSharpAcBits true).2.command
        = acFailExample.command ∧
      (IRrecv.decodeSharpAc acFailExample kSharpAcBits true).2.bits = acFailExample.bits ∧
      (IRrecv.decodeSharpAc acFailExample kSharpAcBits true).2.decode_type
        = acFailExample.decode_type) :=
  ⟨decode_failure_preserves_fields.1 sampleResults kSharpBits true true false
      (IRrecv.decodeSharp sampleResults kSharpBits true true false).2 (by decide),
    decode_failure_preserves_fields.2 acFailExample kSharpAcBits true
      (IRrecv.decodeSharpAc acFailExample kSharpAcBits true).2 (by decide)⟩

/-- C4 counterexample: with the redundancy check disabled (the source's
default build — the second-frame verification sits inside `#ifdef UNIT_TEST`),
a strict decode of a capture holding a single half-frame — fewer pulses than
two full frames, with no inverted copy present at all — still succeeds. -/
theorem strict_decode_single_frame :
    (IRrecv.decodeSharp (capture (IRsend.sendGenericSharp 2 15) sampleResults)
      kSharpBits true true false).1 = true ∧
    (capture (IRsend.sendGenericSharp 2 15) sampleResults).rawbuf.length
      < 2 * (2 * kSharpBits + kFooter) := by
  decide

/-- C4 (amended): in strict mode `decodeSharp` always verifies that the check
bit (bit 0) of the decoded value is zero and that the expansion bit (bit 1)
equals `expectExpansionBit`; only when built with the redundancy check
(`UNIT_TEST`) does it additionally require enough pulses for two full frames
and decode the second, inverted frame, succeeding only when
`firstFrame = secondFrame ^^^ kSharpToggleMask`. -/
theorem strict_decode_checks (r : DecodeResults) (nbits : Nat) (e ut : Bool)
    (h : (IRrecv.decodeSharp r nbits true e ut).1 = true) :
    ((IRrecv.decodeSharp r nbits true e ut).2.value &&& 1 = 0) ∧
    (((IRrecv.decodeSharp r nbits true e ut).2.value &&& 2) >>> 1
      = (if e then 1 else 0)) ∧
    (ut = true → 2 * (2 * nbits + kFooter) ≤ r.rawbuf.length ∧
      ∃ second offset2,
        IRrecv.readBits r.rawbuf (IRrecv.tickOf r) (kStartOffset + 2 * nbits + 2) 0 nbits
          = some (second, offset2) ∧
        (IRrecv.decodeSharp r nbits true e ut).2.value = second ^^^ kSharpToggleMask) := by
  rcases decodeSharp_shape r nbits true e ut with hc | ⟨data, offset, ho, heq, hbits, hsec⟩
  · rw [hc] at h
    exact Bool.noConfusion h
  · rw [heq]
    have hoff : offset = kStartOffset + 2 * nbits :=
      readBits_offset r.rawbuf (IRrecv.tickOf r) nbits kStartOffset 0 data offset ho
    obtain ⟨hb1, hb2⟩ := hbits rfl
    refine ⟨hb2, hb1, fun hu => ?_⟩
    obtain ⟨hlen, second, offset2, hr2, hx⟩ := hsec rfl hu
    refine ⟨hlen, second, offset2, ?_, hx⟩
    rw [← hoff]
    exact hr2

/-- Witness for C4 (amended) on the capture of a full double-frame
transmission of the value 2, strict mode, redundancy-enabled build. -/
theorem strict_decode_checks_witness :
    ((IRrecv.decodeSharp (capture (IRsend.sendSharpRaw 2 15 0) sampleResults) 15 true true
      true).2.value &&& 1 = 0) ∧
    (((IRrecv.decodeSharp (capture (IRsend.sendSharpRaw 2 15 0) sampleResults) 15 true true
      true).2.value &&& 2) >>> 1 = (if true then 1 else 0)) ∧
    (true = true → 2 * (2 * 15 + kFooter)
        ≤ (capture (IRsend.sendSharpRaw 2 15 0) sampleResults).rawbuf.length ∧
      ∃ second offset2,
        IRrecv.readBits (capture (IRsend.sendSharpRaw 2 15 0) sampleResults).rawbuf
          (IRrecv.tickOf (capture (IRsend.sendSharpRaw 2 15 0) sampleResults))
          (kStartOffset + 2 * 15 + 2) 0 15 = some (second, offset2) ∧
        (IRrecv.decodeSharp (capture (IRsend.sendSharpRaw 2 15 0) sampleResults) 15 true true
          true).2.value = second ^^^ kSharpToggleMask) :=
  strict_decode_checks (capture (IRsend.sendSharpRaw 2 15 0) sampleResults) 15 true true
    (by decide)

/-- C3 counterexample: the raw 13-byte array installed by `stateReset` does
not satisfy `validChecksum`: its last byte `0x01` stores checksum nibble 0,
while the computed checksum of the array is 3. -/
theorem stateReset_checksum_invalid :
    IRSharpAc.validChecksum IRSharpAc.stateReset kSharpAcStateLength = false ∧
    IRSharpAc.calcChecksum IRSharpAc.stateReset kSharpAcStateLength = 3 ∧
    IRSharpAc.stateReset.getD (kSharpAcStateLength - 1) 0 >>> 4 = 0 := by
  decide

/-- C3 (amended): the reset array reads back as Power off and Mode Auto, and
it satisfies `validChecksum` once `checksum()` — which `send()`/`getRaw()`
always apply before the state leaves the object — has stored the computed
nibble into the last byte's high nibble. -/
theorem stateReset_properties :
    IRSharpAc.validChecksum (IRSharpAc.checksum IRSharpAc.stateReset) kSharpAcStateLength
      = true ∧
    IRSharpAc.getPower IRSharpAc.stateReset = false ∧
    IRSharpAc.getMode IRSharpAc.stateReset = kSharpAcAuto := by
  decide

/-- Modelled from the spec's checksum sentence, for comparison with the
embedded `calcChecksum`: XOR-reduce `state[0..n-2]`, XOR with the low nibble
of `state[n-1]`, fold the top nibble down via `x ^= x >> 4`, keep the low
4 bits. -/
def specChecksum (state : List Nat) (n : Nat) : Nat :=
  let x := (state.take (n - 1)).foldr (fun b a => b ^^^ a) 0
    ^^^ (state.getD (n - 1) 0 &&& 0xF)
  (x ^^^ (x >>> 4)) &&& 0xF

theorem foldl_xor_eq_foldr (l : List Nat) :
    ∀ a, l.foldl (fun x y => x ^^^ y) a = a ^^^ l.foldr (fun b acc => b ^^^ acc) 0 := by
  induction l with
  | nil => intro a; simp
  | cons b l ih =>
    intro a
    show l.foldl (fun x y => x ^^^ y) (a ^^^ b) = _
    rw [ih (a ^^^ b), List.foldr_cons, Nat.xor_assoc]

/-- C6: for every state array and length, the embedded `calcChecksum` computes
exactly the specified function — XOR of `state[0..n-2]`, XORed with the low
nibble of `state[n-1]`, folded by `x ^= x >> 4` and masked to 4 bits — and
`validChecksum` holds exactly when the high nibble of the last byte equals
that checksum. -/
theorem checksum_spec_correct (state : List Nat) (n : Nat) :
    IRSharpAc.calcChecksum state n = specChecksum state n ∧
    (IRSharpAc.validChecksum state n = true ↔
      state.getD (n - 1) 0 >>> 4 = IRSharpAc.calcChecksum state n) := by
  constructor
  · unfold IRSharpAc.calcChecksum specChecksum IRSharpAc.xorBytes
    rw [foldl_xor_eq_foldr, Nat.zero_xor]
  · unfold IRSharpAc.validChecksum
    exact decide_eq_true_iff

theorem exists_list13 (l : List Nat) (h : l.length = 13) :
    ∃ b0 b1 b2 b3 b4 b5 b6 b7 b8 b9 b10 b11 b12 : Nat,
      l = [b0, b1, b2, b3, b4, b5, b6, b7, b8, b9, b10, b11, b12] := by
  rcases l with _ | ⟨b0, l⟩; · simp at h
  rcases l with _ | ⟨b1, l⟩; · simp at h
  rcases l with _ | ⟨b2, l⟩; · simp at h
  rcases l with _ | ⟨b3, l⟩; · simp at h
  rcases l with _ | ⟨b4, l⟩; · simp at h
  rcases l with _ | ⟨b5, l⟩; · simp at h
  rcases l with _ | ⟨b6, l⟩; · simp at h
  rcases l with _ | ⟨b7, l⟩; · simp at h
  rcases l with _ | ⟨b8, l⟩; · simp at h
  rcases l with _ | ⟨b9, l⟩; · simp at h
  rcases l with _ | ⟨b10, l⟩; · simp at h
  rcases l with _ | ⟨b11, l⟩; · simp at h
  rcases l with _ | ⟨b12, l⟩; · simp at h
  rcases l with _ | ⟨b13, l⟩
  · exact ⟨b0, b1, b2, b3, b4, b5, b6, b7, b8, b9, b10, b11, b12, rfl⟩
  · simp at h

theorem and_df_and_20 (x : Nat) : (x &&& 0xDF) &&& 0x20 = 0 := by
  rw [Nat.and_assoc, show (0xDF : Nat) &&& 0x20 = 0 from rfl, Nat.and_zero]

theorem or_four_and_four (x : Nat) : (x ||| 4) &&& 4 = 4 := by
  have h := Nat.and_two_pow (x ||| 4) 2
  simpa [Nat.testBit_or, show Nat.testBit 4 2 = true from rfl] using h

theorem or_192_and_15 : ∀ d ≤ 15, ((192 : Nat) ||| d) &&& 15 = d := by decide

/-- C7: when the current mode is Auto or Dry, `setTemp` zeroes the temperature
byte and the manual byte and stores no temperature; otherwise it clamps the
request into `[kSharpAcMinTemp, kSharpAcMaxTemp]`, stores
`clamped - kSharpAcMinTemp` in the temperature field, sets the
manual-temperature flag, and `getTemp` afterwards returns the clamped value
(minTemp below the range, maxTemp above it). -/
theorem setTemp_spec (remote : List Nat) (t : Nat)
    (hlen : remote.length = kSharpAcStateLength) :
    ((IRSharpAc.getMode remote = kSharpAcAuto ∨ IRSharpAc.getMode remote = kSharpAcDry) →
      IRSharpAc.setTemp remote t
        = (remote.set kSharpAcByteTemp 0).set kSharpAcByteManual 0) ∧
    (¬(IRSharpAc.getMode remote = kSharpAcAuto ∨ IRSharpAc.getMode remote = kSharpAcDry) →
      IRSharpAc.getTemp (IRSharpAc.setTemp remote t)
          = min (max t kSharpAcMinTemp) kSharpAcMaxTemp ∧
        ((IRSharpAc.setTemp remote t).getD kSharpAcByteTemp 0) &&& kSharpAcMaskTemp
          = min (max t kSharpAcMinTemp) kSharpAcMaxTemp - kSharpAcMinTemp ∧
        ((IRSharpAc.setTemp remote t).getD kSharpAcByteManual 0) &&& kSharpAcBitTempManual
          ≠ 0) := by
  constructor
  · intro hmode
    unfold IRSharpAc.setTemp
    rw [if_pos hmode]
  · intro hmode
    obtain ⟨b0, b1, b2, b3, b4, b5, b6, b7, b8, b9, b10, b11, b12, rfl⟩ :=
      exists_list13 remote hlen
    unfold IRSharpAc.setTemp
    rw [if_neg hmode]
    have hd : min (max t kSharpAcMinTemp) kSharpAcMaxTemp - kSharpAcMinTemp ≤ 15 := by
      simp [kSharpAcMinTemp, kSharpAcMaxTemp]
    have h192 : (0xC0 : Nat) &&& 0xF0 = 192 := rfl
    simp [kSharpAcByteTemp, kSharpAcByteManual, kSharpAcMaskTemp,
      kSharpAcBitTempManual, IRSharpAc.getTemp, List.set, h192,
      or_192_and_15 _ hd, or_four_and_four]
    simp only [kSharpAcMinTemp, kSharpAcMaxTemp]
    omega

/-- Concrete device state whose mode is Cool, obtained from the reset state. -/
def coolState : List Nat := IRSharpAc.setMode IRSharpAc.stateReset kSharpAcCool

/-- Witness for C7 on the Cool-mode state with an out-of-range request 40. -/
theorem setTemp_spec_witness :
    ((IRSharpAc.getMode coolState = kSharpAcAuto ∨
        IRSharpAc.getMode coolState = kSharpAcDry) →
      IRSharpAc.setTemp coolState 40
        = (coolState.set kSharpAcByteTemp 0).set kSharpAcByteManual 0) ∧
    (¬(IRSharpAc.getMode coolState = kSharpAcAuto ∨
        IRSharpAc.getMode coolState = kSharpAcDry) →
      IRSharpAc.getTemp (IRSharpAc.setTemp coolState 40)
          = min (max 40 kSharpAcMinTemp) kSharpAcMaxTemp ∧
        ((IRSharpAc.setTemp coolState 40).getD kSharpAcByteTemp 0) &&& kSharpAcMaskTemp
          = min (max 40 kSharpAcMinTemp) kSharpAcMaxTemp - kSharpAcMinTemp ∧
        ((IRSharpAc.setTemp coolState 40).getD kSharpAcByteManual 0)
            &&& kSharpAcBitTempManual ≠ 0) :=
  setTemp_spec coolState 40 (by decide)

/-- C8 counterexample: starting from a Cool-mode state, `setMode Auto` does
not clear the manual-temperature flag — the temperature setter runs before the
mode byte is updated, so it still sees Cool and sets the flag; the same holds
for `setMode Dry`. -/
theorem setMode_auto_keeps_manual_flag :
    (IRSharpAc.setMode coolState kSharpAcAuto).getD kSharpAcByteManual 0
        &&& kSharpAcBitTempManual ≠ 0 ∧
    (IRSharpAc.setMode coolState kSharpAcDry).getD kSharpAcByteManual 0
        &&& kSharpAcBitTempManual ≠ 0 := by
  decide

/-- C8 (amended): `setMode Auto` and `setMode Dry` force the temperature
field's masked value to 0 (so `getTemp` returns the minimum regardless of
earlier `setTemp` calls), and Auto clears the non-auto marker bit `0x20` in
the power byte; the manual-temperature flag, however, is only cleared when the
*previous* mode was Auto or Dry — the temperature setter runs before the mode
byte is updated, so from Cool or Heat both setters leave the flag set. -/
theorem setMode_auto_dry_spec (remote : List Nat)
    (hlen : remote.length = kSharpAcStateLength) :
    IRSharpAc.getTemp (IRSharpAc.setMode remote kSharpAcAuto) = kSharpAcMinTemp ∧
    (IRSharpAc.setMode remote kSharpAcAuto).getD kSharpAcBytePower 0 &&& 0x20 = 0 ∧
    (IRSharpAc.setMode remote kSharpAcAuto).getD kSharpAcByteTemp 0 &&& kSharpAcMaskTemp
      = 0 ∧
    (IRSharpAc.setMode remote kSharpAcDry).getD kSharpAcByteTemp 0 &&& kSharpAcMaskTemp
      = 0 ∧
    ((IRSharpAc.getMode remote = kSharpAcAuto ∨ IRSharpAc.getMode remote = kSharpAcDry) →
      (IRSharpAc.setMode remote kSharpAcAuto).getD kSharpAcByteManual 0 = 0 ∧
      (IRSharpAc.setMode remote kSharpAcDry).getD kSharpAcByteManual 0 = 0) ∧
    ((IRSharpAc.getMode remote = kSharpAcCool ∨ IRSharpAc.getMode remote = kSharpAcHeat) →
      (IRSharpAc.setMode remote kSharpAcAuto).getD kSharpAcByteManual 0
          &&& kSharpAcBitTempManual ≠ 0 ∧
      (IRSharpAc.setMode remote kSharpAcDry).getD kSharpAcByteManual 0
          &&& kSharpAcBitTempManual ≠ 0) := by
  obtain ⟨b0, b1, b2, b3, b4, b5, b6, b7, b8, b9, b10, b11, b12, rfl⟩ :=
    exists_list13 remote hlen
  have hle : b6 &&& 3 ≤ 3 := Nat.and_le_right
  have h4 : b6 &&& 3 = 0 ∨ b6 &&& 3 = 1 ∨ b6 &&& 3 = 2 ∨ b6 &&& 3 = 3 := by omega
  rcases h4 with hb | hb | hb | hb <;>
    simp [IRSharpAc.setMode, IRSharpAc.setModeAuto, IRSharpAc.setTemp, IRSharpAc.getTemp,
      IRSharpAc.getMode, List.set, hb, kSharpAcAuto, kSharpAcDry, kSharpAcCool,
      kSharpAcHeat, kSharpAcByteTemp, kSharpAcByteManual, kSharpAcBytePower,
      kSharpAcByteMode, kSharpAcMaskTemp, kSharpAcMaskMode, kSharpAcBitTempManual,
      kSharpAcMinTemp, kSharpAcMaxTemp, and_df_and_20, or_four_and_four]
  all_goals decide

/-- Witness for C8 (amended) on the Cool-mode state. -/
theorem setMode_auto_dry_spec_witness :
    IRSharpAc.getTemp (IRSharpAc.setMode coolState kSharpAcAuto) = kSharpAcMinTemp ∧
    (IRSharpAc.setMode coolState kSharpAcAuto).getD kSharpAcBytePower 0 &&& 0x20 = 0 ∧
    (IRSharpAc.setMode coolState kSharpAcAuto).getD kSharpAcByteTemp 0 &&& kSharpAcMaskTemp
      = 0 ∧
    (IRSharpAc.setMode coolState kSharpAcDry).getD kSharpAcByteTemp 0 &&& kSharpAcMaskTemp
      = 0 ∧
    ((IRSharpAc.getMode coolState = kSharpAcAuto ∨
        IRSharpAc.getMode coolState = kSharpAcDry) →
      (IRSharpAc.setMode coolState kSharpAcAuto).getD kSharpAcByteManual 0 = 0 ∧
      (IRSharpAc.setMode coolState kSharpAcDry).getD kSharpAcByteManual 0 = 0) ∧
    ((IRSharpAc.getMode coolState = kSharpAcCool ∨
        IRSharpAc.getMode coolState = kSharpAcHeat) →
      (IRSharpAc.setMode coolState kSharpAcAuto).getD kSharpAcByteManual 0
          &&& kSharpAcBitTempManual ≠ 0 ∧
      (IRSharpAc.setMode coolState kSharpAcDry).getD kSharpAcByteManual 0
          &&& kSharpAcBitTempManual ≠ 0) :=
  setMode_auto_dry_spec coolState (by decide)

/-- C9: `setMode` with a mode value outside `{Auto, Cool, Heat, Dry}` behaves
exactly as `setMode Auto`, and `setFan` with a speed outside
`{FanAuto, FanMin, FanMed, FanHigh, FanMax}` behaves exactly as
`setFan FanAuto`; both setters are total functions on the state, so no error
is signalled. -/
theorem setter_fallback (remote : List Nat) (mode speed : Nat)
    (hlen : remote.length = kSharpAcStateLength)
    (hm : mode ≠ kSharpAcAuto ∧ mode ≠ kSharpAcDry ∧ mode ≠ kSharpAcCool ∧
      mode ≠ kSharpAcHeat)
    (hs : speed ≠ kSharpAcFanAuto ∧ speed ≠ kSharpAcFanMin ∧ speed ≠ kSharpAcFanMed ∧
      speed ≠ kSharpAcFanHigh ∧ speed ≠ kSharpAcFanMax) :
    IRSharpAc.setMode remote mode = IRSharpAc.setMode remote kSharpAcAuto ∧
    IRSharpAc.setFan remote speed = IRSharpAc.setFan remote kSharpAcFanAuto := by
  obtain ⟨b0, b1, b2, b3, b4, b5, b6, b7, b8, b9, b10, b11, b12, rfl⟩ :=
    exists_list13 remote hlen
  obtain ⟨hm1, hm2, hm3, hm4⟩ := hm
  obtain ⟨hs1, hs2, hs3, hs4, hs5⟩ := hs
  have hor5 : (b5 ||| 0x20) ||| 0x20 = b5 ||| 0x20 := by
    rw [Nat.or_assoc, Nat.or_self]
  have hor10 : (b10 ||| 2) ||| 2 = b10 ||| 2 := by
    rw [Nat.or_assoc, Nat.or_self]
  constructor
  · unfold IRSharpAc.setMode
    rw [if_neg hm1, if_neg hm2, if_neg (by
      intro hcon
      rcases hcon with h | h
      · exact hm3 h
      · exact hm4 h), if_pos rfl]
    unfold IRSharpAc.setModeAuto
    simp [List.set, kSharpAcBytePower, kSharpAcByteMode, kSharpAcAuto, hor5]
  · unfold IRSharpAc.setFan
    rw [if_neg hs1, if_neg (by
      intro hcon
      rcases hcon with h | h | h | h
      · exact hs2 h
      · exact hs3 h
      · exact hs4 h
      · exact hs5 h), if_pos rfl]
    unfold IRSharpAc.setFanAuto
    simp [List.set, kSharpAcByteManual, kSharpAcByteFan, kSharpAcBitFanManual,
      kSharpAcFanAuto, hor10]

/-- Witness for C9 at mode 7 and fan speed 6 on the reset state. -/
theorem setter_fallback_witness :
    IRSharpAc.setMode IRSharpAc.stateReset 7 = IRSharpAc.setMode IRSharpAc.stateReset
      kSharpAcAuto ∧
    IRSharpAc.setFan IRSharpAc.stateReset 6 = IRSharpAc.setFan IRSharpAc.stateReset
      kSharpAcFanAuto :=
  setter_fallback IRSharpAc.stateReset 7 6 (by decide)
    ⟨by decide, by decide, by decide, by decide⟩
    ⟨by decide, by decide, by decide, by decide, by decide⟩

theorem getD_set_ne (l : List Nat) (v j n : Nat) (h : n ≠ j) :
    (l.set n v).getD j 0 = l.getD j 0 := by
  simp [List.getD_eq_getElem?_getD, List.getElem?_set_ne h]

theorem setRaw_foldl_length (nc : List Nat) :
    ∀ (l : List Nat) (r : List Nat),
      (l.foldl (fun r i => r.set i (nc.getD i 0)) r).length = r.length := by
  intro l
  induction l with
  | nil => intro r; rfl
  | cons i l ih =>
    intro r
    rw [List.foldl_cons, ih, List.length_set]

theorem setRaw_foldl_getD (nc : List Nat) (j : Nat) :
    ∀ (n : Nat) (r : List Nat), n ≤ j →
      ((List.range n).foldl (fun r i => r.set i (nc.getD i 0)) r).getD j 0 = r.getD j 0 := by
  intro n
  induction n with
  | zero => intro r _; rfl
  | succ n ih =>
    intro r hle
    rw [List.range_succ, List.foldl_append, List.foldl_cons, List.foldl_nil,
      getD_set_ne _ _ _ _ (by omega), ih r (by omega)]

/-- C10: `setRaw remote new_code length` keeps the state length, writes only
indices below `min length kSharpAcStateLength` — it behaves identically to the
call truncated at `kSharpAcStateLength`, so the internal buffer is never
indexed at or beyond `kSharpAcStateLength` — and every byte at an index at or
beyond `min length kSharpAcStateLength` (in particular at or beyond `length`)
keeps its previous value. -/
theorem setRaw_spec (remote new_code : List Nat) (length j : Nat)
    (hj : min length kSharpAcStateLength ≤ j) :
    (IRSharpAc.setRaw remote new_code length).length = remote.length ∧
    (IRSharpAc.setRaw remote new_code length).getD j 0 = remote.getD j 0 ∧
    IRSharpAc.setRaw remote new_code length
      = IRSharpAc.setRaw remote new_code (min length kSharpAcStateLength) := by
  refine ⟨setRaw_foldl_length new_code _ remote, ?_, ?_⟩
  · exact setRaw_foldl_getD new_code j _ remote hj
  · unfold IRSharpAc.setRaw
    rw [Nat.min_assoc, Nat.min_self]

/-- Witness for C10: an over-long `setRaw` call on the reset state, inspected
at index 13. -/
theorem setRaw_spec_witness :
    (IRSharpAc.setRaw IRSharpAc.stateReset (List.replicate 20 7) 20).length
      = IRSharpAc.stateReset.length ∧
    (IRSharpAc.setRaw IRSharpAc.stateReset (List.replicate 20 7) 20).getD 13 0
      = IRSharpAc.stateReset.getD 13 0 ∧
    IRSharpAc.setRaw IRSharpAc.stateReset (List.replicate 20 7) 20
      = IRSharpAc.setRaw IRSharpAc.stateReset (List.replicate 20 7)
          (min 20 kSharpAcStateLength) :=
  setRaw_spec IRSharpAc.stateReset (List.replicate 20 7) 20 13 (by decide)
